import Mathlib

/-!
Shallow embedding of `split_cv_data.py`, the single source file of the
repository: it reads drug-drug-interaction (DDI) records, groups the drug
pairs by side effect, filters to frequent side effects, samples negative
(non-interacting) drug pairs, slices the positive and negative pair lists
into cross-validation folds, and writes each fold to disk.

Conventions of the embedding:
* Python dictionaries (which preserve insertion order) are association lists.
* A failing `assert` or a raised `TypeError` is `Option.none` / `Except.error`.
* The stream of pairs produced by `np.random.choice(drug_idx_list, size=2,
  replace=False)` inside the sampling loop is an explicit list of draws.
-/

/-- A drug pair `(did1, did2)`: a Python 2-tuple of drug identifier strings. -/
abbrev DrugPair := String × String

/-- One CSV data row `(drug_id_1, drug_id_2, side_effect_id)`; the trailing
columns (bound to `*_` by the Python destructuring) are dropped. -/
abbrev DdiRow := String × String × String

/-- One step of the dictionary update in `read_ddi_instances`:
`if sid not in side_effects: side_effects[sid] = []` followed by
`side_effects[sid] += [(did1, did2)]`, on an insertion-ordered dictionary
represented as an association list. -/
def addRow (m : List (String × List DrugPair)) (sid : String) (p : DrugPair) :
    List (String × List DrugPair) :=
  match m with
  | [] => [(sid, [p])]
  | (s, ps) :: rest =>
    if s = sid then (s, ps ++ [p]) :: rest else (s, ps) :: addRow rest sid p

/-- The row loop of `read_ddi_instances`: each data row is destructured as
`did1, did2, sid, *_`, the row `assert did1 != did2` aborts the run
(modelled by `none`), and otherwise the pair is appended to its side
effect's list. -/
def readRows : List DdiRow → List (String × List DrugPair) →
    Option (List (String × List DrugPair))
  | [], m => some m
  | (did1, did2, sid) :: rest, m =>
    if did1 = did2 then none
    else readRows rest (addRow m sid (did1, did2))

/-- Model of `read_ddi_instances(ddi_csv, threshold=498)` on the default
(non-debug) path: `csv_rows` is the full CSV, whose first row is the header
(the Python loop keeps rows with `i > 0` only); after grouping, only side
effects with `len(ddis) >= threshold` are kept. -/
def read_ddi_instances (csv_rows : List DdiRow) (threshold : Nat) :
    Option (List (String × List DrugPair)) :=
  match readRows (csv_rows.drop 1) [] with
  | none => none
  | some side_effects =>
    some (side_effects.filter (fun se => threshold ≤ se.2.length))

/-- The `while len(negative_set) < size` loop of `create_negative_instances`.
`draws` is the stream of pairs produced by
`np.random.choice(drug_idx_list, size=2, replace=False)`;
`negative_set` is the accumulator (kept in insertion order); `none` models
either the `assert drug1 != drug2` failing or the random stream being
exhausted before the loop finishes. -/
def negLoop (positive_set : List DrugPair) (size : Nat) :
    List DrugPair → List DrugPair → Option (List DrugPair)
  | negative_set, [] =>
    if negative_set.length < size then none else some negative_set
  | negative_set, (drug1, drug2) :: rest =>
    if negative_set.length < size then
      if drug1 = drug2 then none
      else if (drug1, drug2) ∈ negative_set ∨ (drug2, drug1) ∈ negative_set then
        negLoop positive_set size negative_set rest
      else if (drug1, drug2) ∈ positive_set ∨ (drug2, drug1) ∈ positive_set then
        negLoop positive_set size negative_set rest
      else
        negLoop positive_set size (negative_set ++ [(drug1, drug2)]) rest
    else some negative_set

/-- Model of `create_negative_instances(drug_idx_list, positive_set, size)`.
Python's `if not size: size = len(positive_set)` treats both `None` and `0`
as absent. `drug_idx_list` is the list of loaded drug identifiers the draws
are sampled from; the sampling itself is abstracted by the `draws` stream. -/
def create_negative_instances (drug_idx_list : List String) (draws : List DrugPair)
    (positive_set : List DrugPair) (size : Option Nat) : Option (List DrugPair) :=
  let _ := drug_idx_list
  let sz := match size with
    | none => positive_set.length
    | some 0 => positive_set.length
    | some (n + 1) => n + 1
  negLoop positive_set sz [] draws

/-- Python slice `l[a:b]` for natural-number bounds `a <= b` (and empty when
`b <= a`), as used by `split_all_cross_validation_datasets`. -/
def pySlice (l : List α) (a b : Nat) : List α := (l.drop a).take (b - a)

/-- The per-side-effect body of `split_all_cross_validation_datasets`:
`fold_len = len(ds) // n_fold`, `fold_start = (fold_i - 1) * fold_len`,
`fold_end = fold_i * fold_len` except for the last fold which ends at
`len(ds)`, and the fold receives `ds[fold_start:fold_end]`. -/
def foldSlice (ds : List α) (n_fold fold_i : Nat) : List α :=
  let fold_len := ds.length / n_fold
  let fold_start := (fold_i - 1) * fold_len
  let fold_end := if fold_i < n_fold then fold_i * fold_len else ds.length
  pySlice ds fold_start fold_end

/-- Model of `split_all_cross_validation_datasets(datasets, n_fold)[fold_i]`:
the dictionary assigning to each side effect its slice for fold `fold_i`. -/
def split_all_cross_validation_datasets (datasets : List (String × List α))
    (n_fold fold_i : Nat) : List (String × List α) :=
  datasets.map (fun se => (se.1, foldSlice se.2 n_fold fold_i))

/-- A Python value appearing in the file-name expression of
`split_decagon_cv`: `opt.path` pieces are strings, `opt.n_fold` is an int. -/
inductive PyVal where
  | str : String → PyVal
  | int : Nat → PyVal
deriving DecidableEq

/-- Python `+` on such values: `str + str` concatenates, `int + int` adds,
and a mixed `str + int` (or `int + str`) raises `TypeError`. -/
def pyAdd : PyVal → PyVal → Except String PyVal
  | .str a, .str b => .ok (.str (a ++ b))
  | .int a, .int b => .ok (.int (a + b))
  | _, _ => .error "TypeError"

/-- The output file name
`opt.path + "decagon/" + "folds/" + opt.n_fold + "fold.npy"` computed by
`split_decagon_cv` for one fold; the expression does not mention `fold_i`. -/
def fold_output_filename (path n_fold : PyVal) : Except String PyVal := do
  let a ← pyAdd path (.str "decagon/")
  let b ← pyAdd a (.str "folds/")
  let c ← pyAdd b n_fold
  pyAdd c (.str "fold.npy")

/-- The write loop of `split_decagon_cv`: for every `fold_i` in
`range(1, n_fold + 1)` it computes the output file name (the same
fold-independent expression each time) before anything is written. -/
def split_decagon_cv_filenames (path : String) (n_fold : Nat) :
    Except String (List PyVal) :=
  (List.range n_fold).mapM (fun _fold_i => fold_output_filename (.str path) (.int n_fold))

/-- Python `random.randint(0,)` as written in `split_qm9_cv`: `randint(a, b)`
requires two arguments, so the single-argument call raises `TypeError`
before drawing anything. -/
def randint_one_arg (a : Nat) : Except String Nat :=
  let _ := a
  .error "TypeError"

/-- The `for i in range(10000)` loop of `split_qm9_cv`, with the remaining
iteration count as fuel: when `i` is not yet in `test_indices`, the body
appends `random.randint(0,)`, whose `TypeError` aborts the loop. -/
def qm9_loop : Nat → Nat → List Nat → Except String (List Nat)
  | 0, _, test_indices => .ok test_indices
  | fuel + 1, i, test_indices =>
    if i ∈ test_indices then qm9_loop fuel (i + 1) test_indices
    else
      match randint_one_arg 0 with
      | .error e => .error e
      | .ok r => qm9_loop fuel (i + 1) (test_indices ++ [r])

/-- Model of `split_qm9_cv(opt)`: `data_size = len(opt.graph_dict)` is
computed and never used, as in the source, then the loop runs. -/
def split_qm9_cv (graph_dict_size : Nat) : Except String (List Nat) :=
  let _data_size := graph_dict_size
  qm9_loop 10000 0 []

/-- CSV fixture: a header row followed by 500 data rows for side effect
C0001 (used for the worked example of the filtering threshold). -/
def csv_rows_500 : List DdiRow :=
  ("drug_id_1", "drug_id_2", "side_effect") :: List.replicate 500 ("A", "B", "C0001")

/-- CSV fixture: a header row followed by 100 data rows for side effect
C0001. -/
def csv_rows_100 : List DdiRow :=
  ("drug_id_1", "drug_id_2", "side_effect") :: List.replicate 100 ("A", "B", "C0001")

/-! ## Theorems -/

/-- Every iteration of the write loop of `split_decagon_cv` evaluates the same
file-name expression, and that expression raises `TypeError`, which poisons
the whole loop. -/
theorem mapM_filename_error (path : String) (nf : Nat) (l : List Nat) (h : l ≠ []) :
    l.mapM (fun _ => fold_output_filename (.str path) (.int nf)) = .error "TypeError" := by
  cases l with
  | nil => exact absurd rfl h
  | cons a as => rfl

/-- C8 (refuted by the code; the claim states the intended behaviour): for
every path and every positive fold count, the write loop of
`split_decagon_cv` raises `TypeError` while building the output file name
(the string path is concatenated with the int `n_fold`), so no per-fold
binary file is ever written; moreover the file-name expression does not
mention the fold index, so even the intended names would not be distinct. -/
theorem split_decagon_cv_write_fails (path : String) (n_fold : Nat) (h : 1 ≤ n_fold) :
    split_decagon_cv_filenames path n_fold = .error "TypeError" ∧
    fold_output_filename (.str path) (.int n_fold) = .error "TypeError" := by
  constructor
  · unfold split_decagon_cv_filenames
    exact mapM_filename_error path n_fold _ (by simp [List.range_eq_nil]; omega)
  · rfl

/-- Witness for `split_decagon_cv_write_fails` at the default configuration
(`path = "./data/"`, `n_fold = 10`). -/
theorem split_decagon_cv_write_fails_witness :
    split_decagon_cv_filenames "./data/" 10 = .error "TypeError" ∧
    fold_output_filename (.str "./data/") (.int 10) = .error "TypeError" :=
  split_decagon_cv_write_fails "./data/" 10 (by decide)

/-- C10: `split_qm9_cv` never completes normally: on the first loop iteration
its body calls `random.randint` with a single argument, which raises
`TypeError`, so requesting the qm9 split always fails before producing any
output. -/
theorem split_qm9_cv_always_raises (graph_dict_size : Nat) :
    split_qm9_cv graph_dict_size = .error "TypeError" := rfl

/-- A data row whose two drug identifiers coincide makes the row loop of
`read_ddi_instances` fail on `assert did1 != did2`, wherever the row is. -/
theorem readRows_duplicate_none (rows : List DdiRow) :
    ∀ m, (∃ r ∈ rows, r.1 = r.2.1) → readRows rows m = none := by
  induction rows with
  | nil => intro m h; simp at h
  | cons r rest ih =>
    intro m h
    obtain ⟨d1, d2, sid⟩ := r
    by_cases hd : d1 = d2
    · simp [readRows, hd]
    · obtain ⟨r', hr', heq⟩ := h
      rcases List.mem_cons.mp hr' with rfl | hmem
      · exact absurd heq hd
      · simp only [readRows, if_neg hd]
        exact ih _ ⟨r', hmem, heq⟩

/-- C6: if any data row of the DDI CSV has `drug_id_1` equal to `drug_id_2`,
`read_ddi_instances` fails on its assertion (modelled as `none`); there is
no recovery or retry. -/
theorem read_ddi_instances_duplicate_asserts (csv_rows : List DdiRow) (threshold : Nat)
    (h : ∃ r ∈ csv_rows.drop 1, r.1 = r.2.1) :
    read_ddi_instances csv_rows threshold = none := by
  unfold read_ddi_instances
  rw [readRows_duplicate_none _ _ h]

/-- Witness for `read_ddi_instances_duplicate_asserts`: a CSV whose single
data row repeats drug `A`. -/
theorem read_ddi_instances_duplicate_asserts_witness :
    read_ddi_instances [("drug_id_1", "drug_id_2", "side_effect"), ("A", "A", "C0001")] 498
      = none :=
  read_ddi_instances_duplicate_asserts _ 498 ⟨("A", "A", "C0001"), by simp, rfl⟩

set_option maxRecDepth 4000 in
/-- C4: after the filtering step of `read_ddi_instances`, a side effect is
retained exactly when its grouped pair list has length at least the
threshold; in particular, with threshold 498, a side effect with 500 CSV
data rows is retained and one with 100 data rows is dropped. -/
theorem read_ddi_instances_threshold_filter (csv_rows : List DdiRow) (threshold : Nat)
    (side_effects out : List (String × List DrugPair))
    (hg : readRows (csv_rows.drop 1) [] = some side_effects)
    (hr : read_ddi_instances csv_rows threshold = some out)
    (se : String × List DrugPair) :
    (se ∈ out ↔ se ∈ side_effects ∧ threshold ≤ se.2.length) ∧
    read_ddi_instances csv_rows_500 498 = some [("C0001", List.replicate 500 ("A", "B"))] ∧
    read_ddi_instances csv_rows_100 498 = some [] := by
  refine ⟨?_, by decide, by decide⟩
  unfold read_ddi_instances at hr
  rw [hg] at hr
  cases hr
  simp [List.mem_filter]

set_option maxRecDepth 4000 in
/-- Witness for `read_ddi_instances_threshold_filter` on the 500-row CSV
fixture and the side effect C0001. -/
theorem read_ddi_instances_threshold_filter_witness :
    (("C0001", List.replicate 500 (("A" : String), ("B" : String)))
        ∈ [("C0001", List.replicate 500 (("A" : String), ("B" : String)))] ↔
      ("C0001", List.replicate 500 (("A" : String), ("B" : String)))
          ∈ [("C0001", List.replicate 500 (("A" : String), ("B" : String)))] ∧
        498 ≤ (List.replicate 500 (("A" : String), ("B" : String))).length) ∧
    read_ddi_instances csv_rows_500 498 = some [("C0001", List.replicate 500 ("A", "B"))] ∧
    read_ddi_instances csv_rows_100 498 = some [] :=
  read_ddi_instances_threshold_filter csv_rows_500 498
    [("C0001", List.replicate 500 ("A", "B"))] [("C0001", List.replicate 500 ("A", "B"))]
    (by decide) (by decide) ("C0001", List.replicate 500 ("A", "B"))

/-- Invariant preservation for the sampling loop: any property of the
accumulated negative set that is preserved by appending a freshly accepted
draw (distinct components, not yet present in either orientation, not
positive in either orientation) holds for the returned list. -/
theorem negLoop_invariant (positive_set : List DrugPair) (size : Nat)
    (Inv : List DrugPair → Prop)
    (hskip : ∀ acc d1 d2, Inv acc → d1 ≠ d2 →
      ¬((d1, d2) ∈ acc ∨ (d2, d1) ∈ acc) →
      ¬((d1, d2) ∈ positive_set ∨ (d2, d1) ∈ positive_set) →
      Inv (acc ++ [(d1, d2)])) :
    ∀ (draws acc out : List DrugPair), Inv acc →
      negLoop positive_set size acc draws = some out → Inv out := by
  intro draws
  induction draws with
  | nil =>
    intro acc out hacc hrun
    simp only [negLoop] at hrun
    split at hrun
    · simp at hrun
    · cases hrun; exact hacc
  | cons c rest ih =>
    intro acc out hacc hrun
    obtain ⟨d1, d2⟩ := c
    simp only [negLoop] at hrun
    split at hrun
    · split at hrun
      · simp at hrun
      · next hne =>
        split at hrun
        · exact ih acc out hacc hrun
        · next hnacc =>
          split at hrun
          · exact ih acc out hacc hrun
          · next hnpos => exact ih _ out (hskip acc d1 d2 hacc hne hnacc hnpos) hrun
    · cases hrun; exact hacc

/-- C1: every pair in the list returned by `create_negative_instances` is
absent from the positive set in both orientations. -/
theorem create_negative_instances_disjoint_from_positive
    (drug_idx_list : List String) (draws positive_set : List DrugPair)
    (size : Option Nat) (out : List DrugPair)
    (h : create_negative_instances drug_idx_list draws positive_set size = some out)
    (p : DrugPair) (hp : p ∈ out) :
    p ∉ positive_set ∧ (p.2, p.1) ∉ positive_set := by
  unfold create_negative_instances at h
  refine negLoop_invariant positive_set _
    (fun acc => ∀ q ∈ acc, q ∉ positive_set ∧ (q.2, q.1) ∉ positive_set)
    ?_ draws [] out (by simp) h p hp
  intro acc d1 d2 hacc _hne _hnacc hnpos q hq
  rcases List.mem_append.mp hq with hq | hq
  · exact hacc q hq
  · have hq' : q = (d1, d2) := by simpa using hq
    subst hq'
    push_neg at hnpos
    exact hnpos

/-- Witness for `create_negative_instances_disjoint_from_positive`: with drugs
`A B C`, positive pair `(A, B)` and a single draw `(A, C)`, the sampler
returns `[(A, C)]`, and neither `(A, C)` nor `(C, A)` is positive. -/
theorem create_negative_instances_disjoint_from_positive_witness :
    (("A", "C") : DrugPair) ∉ [(("A", "B") : DrugPair)] ∧
    (("C", "A") : DrugPair) ∉ [(("A", "B") : DrugPair)] :=
  create_negative_instances_disjoint_from_positive
    ["A", "B", "C"] [("A", "C")] [("A", "B")] (some 1) [("A", "C")]
    rfl ("A", "C") (by decide)

/-- C9 invariant: the accumulated negative set never contains a pair twice,
nor both orientations of the same unordered pair. -/
theorem negLoop_pairwise_distinct (positive_set : List DrugPair) (size : Nat)
    (draws out : List DrugPair)
    (h : negLoop positive_set size [] draws = some out) :
    out.Pairwise (fun p q => p ≠ q ∧ p ≠ (q.2, q.1)) := by
  refine negLoop_invariant positive_set size
    (fun acc => acc.Pairwise (fun p q => p ≠ q ∧ p ≠ (q.2, q.1)))
    ?_ draws [] out (by simp) h
  intro acc d1 d2 hacc _hne hnacc _hnpos
  rw [List.pairwise_append]
  push_neg at hnacc
  refine ⟨hacc, by simp, ?_⟩
  intro a ha b hb
  have hb' : b = (d1, d2) := by simpa using hb
  subst hb'
  constructor
  · intro hab; exact hnacc.1 (hab ▸ ha)
  · intro hab
    apply hnacc.2
    have : ((d1, d2).2, (d1, d2).1) ∈ acc := hab ▸ ha
    simpa using this

/-- C9: the list returned by `create_negative_instances` contains no
duplicate pair and never both orientations of the same unordered pair:
entries at two distinct positions differ and are not each other's reverse. -/
theorem create_negative_instances_no_duplicates
    (drug_idx_list : List String) (draws positive_set : List DrugPair)
    (size : Option Nat) (out : List DrugPair)
    (h : create_negative_instances drug_idx_list draws positive_set size = some out)
    (i j : Nat) (hi : i < out.length) (hj : j < out.length) (hij : i ≠ j) :
    out.get ⟨i, hi⟩ ≠ out.get ⟨j, hj⟩ ∧
    out.get ⟨i, hi⟩ ≠ ((out.get ⟨j, hj⟩).2, (out.get ⟨j, hj⟩).1) := by
  unfold create_negative_instances at h
  have hpw := negLoop_pairwise_distinct _ _ draws out h
  rw [List.pairwise_iff_get] at hpw
  rcases Nat.lt_or_ge i j with hlt | hge
  · exact hpw ⟨i, hi⟩ ⟨j, hj⟩ (Fin.mk_lt_mk.mpr hlt)
  · have hlt : j < i := by omega
    have h2 := hpw ⟨j, hj⟩ ⟨i, hi⟩ (Fin.mk_lt_mk.mpr hlt)
    refine ⟨fun he => h2.1 he.symm, fun he => h2.2 ?_⟩
    rw [he]

/-- Witness for `create_negative_instances_no_duplicates`: two draws
`(A, C)` and `(B, C)` with positive pair `(A, B)` give the output
`[(A, C), (B, C)]`, whose two entries differ and are not reverses. -/
theorem create_negative_instances_no_duplicates_witness :
    (("A", "C") : DrugPair) ≠ ("B", "C") ∧ (("A", "C") : DrugPair) ≠ ("C", "B") :=
  create_negative_instances_no_duplicates
    ["A", "B", "C"] [("A", "C"), ("B", "C")] [("A", "B")] (some 2)
    [("A", "C"), ("B", "C")] rfl 0 1 (by decide) (by decide) (by decide)

/-- Updating the side-effect dictionary with a pair of distinct identifiers
preserves the property that every stored pair has distinct identifiers. -/
theorem addRow_pairs_distinct (sid : String) (p : DrugPair) (hp : p.1 ≠ p.2) :
    ∀ m, (∀ se ∈ m, ∀ q ∈ se.2, q.1 ≠ q.2) →
      ∀ se ∈ addRow m sid p, ∀ q ∈ se.2, q.1 ≠ q.2 := by
  intro m
  induction m with
  | nil =>
    intro _ se hse q hq
    simp only [addRow, List.mem_singleton] at hse
    subst hse
    have : q = p := by simpa using hq
    subst this
    exact hp
  | cons e m ihm =>
    intro hm se hse q hq
    obtain ⟨s, ps⟩ := e
    simp only [addRow] at hse
    split at hse
    · rcases List.mem_cons.mp hse with rfl | hse'
      · rcases List.mem_append.mp hq with hq' | hq'
        · exact hm (s, ps) (by simp) q hq'
        · have : q = p := by simpa using hq'
          subst this
          exact hp
      · exact hm se (List.mem_cons_of_mem _ hse') q hq
    · rcases List.mem_cons.mp hse with rfl | hse'
      · exact hm (s, ps) (by simp) q hq
      · exact ihm (fun e' he' => hm e' (List.mem_cons_of_mem _ he')) se hse' q hq

/-- Pairs accumulated by `readRows` always have distinct drug identifiers,
because every accepted row passed the `assert did1 != did2`. -/
theorem readRows_pairs_distinct (rows : List DdiRow) :
    ∀ m m', (∀ se ∈ m, ∀ q ∈ se.2, q.1 ≠ q.2) →
      readRows rows m = some m' → ∀ se ∈ m', ∀ q ∈ se.2, q.1 ≠ q.2 := by
  induction rows with
  | nil =>
    intro m m' hm hrun
    simp only [readRows] at hrun
    cases hrun; exact hm
  | cons r rest ih =>
    intro m m' hm hrun
    obtain ⟨d1, d2, sid⟩ := r
    simp only [readRows] at hrun
    split at hrun
    · simp at hrun
    · next hne => exact ih _ m' (addRow_pairs_distinct sid (d1, d2) hne m hm) hrun

/-- C7: every drug pair held by the program consists of two distinct drug
identifiers: every pair of every side effect accepted from the CSV by
`read_ddi_instances`, and every pair produced by
`create_negative_instances`. -/
theorem all_held_pairs_distinct
    (csv_rows : List DdiRow) (threshold : Nat) (out : List (String × List DrugPair))
    (hr : read_ddi_instances csv_rows threshold = some out)
    (se : String × List DrugPair) (hse : se ∈ out) (p : DrugPair) (hp : p ∈ se.2)
    (drug_idx_list : List String) (draws positive_set : List DrugPair) (size : Option Nat)
    (neg : List DrugPair)
    (hn : create_negative_instances drug_idx_list draws positive_set size = some neg)
    (q : DrugPair) (hq : q ∈ neg) :
    p.1 ≠ p.2 ∧ q.1 ≠ q.2 := by
  constructor
  · unfold read_ddi_instances at hr
    cases hg : readRows (csv_rows.drop 1) [] with
    | none => rw [hg] at hr; simp at hr
    | some m =>
      rw [hg] at hr
      cases hr
      exact readRows_pairs_distinct _ [] m (by simp) hg se (List.mem_filter.mp hse).1 p hp
  · unfold create_negative_instances at hn
    refine negLoop_invariant positive_set _ (fun acc => ∀ r ∈ acc, r.1 ≠ r.2)
      ?_ draws [] neg (by simp) hn q hq
    intro acc d1 d2 hacc hne _ _ r hrm
    rcases List.mem_append.mp hrm with hrm | hrm
    · exact hacc r hrm
    · have : r = (d1, d2) := by simpa using hrm
      subst this
      exact hne

/-- Witness for `all_held_pairs_distinct`: a one-row CSV with pair `(A, B)`
and a sampler run returning `[(A, C)]`. -/
theorem all_held_pairs_distinct_witness :
    ("A" : String) ≠ "B" ∧ ("A" : String) ≠ "C" :=
  all_held_pairs_distinct
    [("drug_id_1", "drug_id_2", "side_effect"), ("A", "B", "C0001")] 1
    [("C0001", [("A", "B")])] (by decide)
    ("C0001", [("A", "B")]) (by decide) ("A", "B") (by decide)
    ["A", "B", "C"] [("A", "C")] [("A", "B")] (some 1) [("A", "C")]
    rfl ("A", "C") (by decide)

/-- With `size = len(positive_set)`, the Python default-handling of the
`size` argument is the identity, so `create_negative_instances` is exactly
the sampling loop started on an empty negative set. -/
theorem create_negative_instances_eq (drug_idx_list : List String)
    (draws positive_set : List DrugPair) :
    create_negative_instances drug_idx_list draws positive_set (some positive_set.length)
      = negLoop positive_set positive_set.length [] draws := by
  unfold create_negative_instances
  cases h : positive_set.length with
  | zero => rfl
  | succ n => rfl

/-- The sampling loop only stops once the accumulated negative set has
exactly `size` elements (it grows one element at a time from a start of at
most `size` elements). -/
theorem negLoop_length (positive_set : List DrugPair) (size : Nat) :
    ∀ (draws acc out : List DrugPair), acc.length ≤ size →
      negLoop positive_set size acc draws = some out → out.length = size := by
  intro draws
  induction draws with
  | nil =>
    intro acc out hle hrun
    simp only [negLoop] at hrun
    split at hrun
    · simp at hrun
    · cases hrun; omega
  | cons c rest ih =>
    intro acc out hle hrun
    obtain ⟨d1, d2⟩ := c
    simp only [negLoop] at hrun
    split at hrun
    · split at hrun
      · simp at hrun
      · split at hrun
        · exact ih acc out hle hrun
        · split at hrun
          · exact ih acc out hle hrun
          · refine ih _ out ?_ hrun
            simp only [List.length_append, List.length_cons, List.length_nil]
            omega
    · cases hrun; omega

/-- On a stream of pairwise-distinct draws with distinct components, none of
which is positive in either orientation or already in the accumulator, the
sampling loop accepts every draw in order until it reaches `size`. -/
theorem negLoop_all_good (positive_set : List DrugPair) (size : Nat) :
    ∀ (cands acc : List DrugPair),
      (∀ p ∈ cands, p.1 ≠ p.2) →
      (∀ p ∈ cands, p ∉ positive_set ∧ (p.2, p.1) ∉ positive_set) →
      (∀ p ∈ cands, p ∉ acc ∧ (p.2, p.1) ∉ acc) →
      cands.Pairwise (fun p q => p ≠ q ∧ p ≠ (q.2, q.1)) →
      size ≤ acc.length + cands.length →
      negLoop positive_set size acc cands = some (acc ++ cands.take (size - acc.length)) := by
  intro cands
  induction cands with
  | nil =>
    intro acc _ _ _ _ hsize
    simp only [negLoop, List.take_nil, List.append_nil]
    rw [if_neg (by simp at hsize; omega)]
  | cons c rest ih =>
    intro acc hd hp hacc hpw hsize
    obtain ⟨d1, d2⟩ := c
    by_cases hlen : acc.length < size
    · have hne : ¬ d1 = d2 := hd (d1, d2) (by simp)
      have hnacc : ¬((d1, d2) ∈ acc ∨ (d2, d1) ∈ acc) := by
        have h1 := hacc (d1, d2) (by simp)
        rintro (h | h)
        · exact h1.1 h
        · exact h1.2 h
      have hnpos : ¬((d1, d2) ∈ positive_set ∨ (d2, d1) ∈ positive_set) := by
        have h1 := hp (d1, d2) (by simp)
        rintro (h | h)
        · exact h1.1 h
        · exact h1.2 h
      simp only [negLoop]
      rw [if_pos hlen, if_neg hne, if_neg hnacc, if_neg hnpos]
      have hhead := List.pairwise_cons.mp hpw
      have ihres := ih (acc ++ [(d1, d2)])
        (fun p hp' => hd p (List.mem_cons_of_mem _ hp'))
        (fun p hp' => hp p (List.mem_cons_of_mem _ hp'))
        (fun p hp' => by
          have h1 := hacc p (List.mem_cons_of_mem _ hp')
          have h2 := hhead.1 p hp'
          constructor
          · simp only [List.mem_append, List.mem_singleton]
            rintro (h | h)
            · exact h1.1 h
            · exact h2.1 h.symm
          · simp only [List.mem_append, List.mem_singleton]
            rintro (h | h)
            · exact h1.2 h
            · exact h2.2 h.symm)
        hhead.2
        (by simp only [List.length_append, List.length_cons, List.length_nil] at hsize ⊢; omega)
      rw [ihres]
      have hk : size - acc.length = (size - (acc.length + 1)) + 1 := by omega
      rw [hk, List.take_succ_cons]
      simp [List.append_assoc]
    · simp only [negLoop]
      rw [if_neg hlen]
      have hz : size - acc.length = 0 := by omega
      rw [hz, List.take_zero, List.append_nil]

/-- C5: called with `size` equal to the positive list's length, the sampler
returns a list of exactly that length on any successful run; and when at
least that many distinct unordered non-positive pairs over the loaded drug
identifiers are available to be drawn, a run over them terminates
successfully, accepting exactly the first `size` of them. -/
theorem create_negative_instances_returns_requested_size
    (drug_idx_list : List String) (cands draws positive_set out : List DrugPair)
    (hrun : create_negative_instances drug_idx_list draws positive_set
      (some positive_set.length) = some out)
    (hdistinct : ∀ p ∈ cands, p.1 ≠ p.2)
    (hnonpos : ∀ p ∈ cands, p ∉ positive_set ∧ (p.2, p.1) ∉ positive_set)
    (_hdrugs : ∀ p ∈ cands, p.1 ∈ drug_idx_list ∧ p.2 ∈ drug_idx_list)
    (hpw : cands.Pairwise (fun p q => p ≠ q ∧ p ≠ (q.2, q.1)))
    (hlen : positive_set.length ≤ cands.length) :
    out.length = positive_set.length ∧
    create_negative_instances drug_idx_list cands positive_set (some positive_set.length)
      = some (cands.take positive_set.length) ∧
    (cands.take positive_set.length).length = positive_set.length := by
  refine ⟨?_, ?_, ?_⟩
  · rw [create_negative_instances_eq] at hrun
    exact negLoop_length positive_set positive_set.length draws [] out (by simp) hrun
  · rw [create_negative_instances_eq]
    have h := negLoop_all_good positive_set positive_set.length cands []
      hdistinct hnonpos (by simp) hpw (by simpa using hlen)
    simpa using h
  · rw [List.length_take]
    omega

/-- Witness for `create_negative_instances_returns_requested_size`: two
positive pairs over drugs `A B C`, a draw stream holding the two available
negative pairs, and a successful run on that stream. -/
theorem create_negative_instances_returns_requested_size_witness :
    ([("A", "C"), ("B", "C")] : List DrugPair).length
        = ([("A", "B"), ("B", "A")] : List DrugPair).length ∧
    create_negative_instances ["A", "B", "C"] [("A", "C"), ("B", "C")]
        [("A", "B"), ("B", "A")] (some ([("A", "B"), ("B", "A")] : List DrugPair).length)
      = some (([("A", "C"), ("B", "C")] : List DrugPair).take
          ([("A", "B"), ("B", "A")] : List DrugPair).length) ∧
    ((([("A", "C"), ("B", "C")] : List DrugPair)).take
        ([("A", "B"), ("B", "A")] : List DrugPair).length).length
      = ([("A", "B"), ("B", "A")] : List DrugPair).length :=
  create_negative_instances_returns_requested_size ["A", "B", "C"]
    [("A", "C"), ("B", "C")] [("A", "C"), ("B", "C")] [("A", "B"), ("B", "A")]
    [("A", "C"), ("B", "C")] rfl (by decide) (by decide) (by decide) (by decide) (by decide)

/-- A non-last fold is the contiguous slice of length `len // n_fold`
starting at offset `(fold_i - 1) * (len // n_fold)`. -/
theorem foldSlice_of_lt {α : Type} (l : List α) (n_fold i : Nat)
    (h1 : 1 ≤ i) (h2 : i < n_fold) :
    foldSlice l n_fold i
      = (l.drop ((i - 1) * (l.length / n_fold))).take (l.length / n_fold) := by
  obtain ⟨j, rfl⟩ : ∃ j, i = j + 1 := ⟨i - 1, by omega⟩
  simp only [foldSlice, pySlice, Nat.add_sub_cancel]
  rw [if_pos h2]
  congr 1
  rw [Nat.succ_mul]
  exact Nat.add_sub_cancel_left _ _

/-- A non-last fold holds exactly `len // n_fold` elements. -/
theorem foldSlice_length_of_lt {α : Type} (l : List α) (n_fold i : Nat)
    (h1 : 1 ≤ i) (h2 : i < n_fold) :
    (foldSlice l n_fold i).length = l.length / n_fold := by
  rw [foldSlice_of_lt l n_fold i h1 h2, List.length_take, List.length_drop]
  have hmul : n_fold * (l.length / n_fold) ≤ l.length := Nat.mul_div_le l.length n_fold
  have hle : i * (l.length / n_fold) ≤ n_fold * (l.length / n_fold) :=
    Nat.mul_le_mul_right _ (Nat.le_of_lt h2)
  obtain ⟨j, rfl⟩ : ∃ j, i = j + 1 := ⟨i - 1, by omega⟩
  simp only [Nat.add_sub_cancel]
  rw [Nat.succ_mul] at hle
  omega

/-- The last fold is the remaining suffix, of length
`len // n_fold + len % n_fold`. -/
theorem foldSlice_last {α : Type} (l : List α) (n_fold : Nat) (hn : 1 ≤ n_fold) :
    foldSlice l n_fold n_fold = l.drop ((n_fold - 1) * (l.length / n_fold)) ∧
    (foldSlice l n_fold n_fold).length = l.length / n_fold + l.length % n_fold := by
  have heq : foldSlice l n_fold n_fold = l.drop ((n_fold - 1) * (l.length / n_fold)) := by
    simp only [foldSlice, pySlice]
    rw [if_neg (lt_irrefl n_fold)]
    exact List.take_of_length_le (Nat.le_of_eq (List.length_drop _ _))
  refine ⟨heq, ?_⟩
  rw [heq, List.length_drop]
  have hdm := Nat.div_add_mod l.length n_fold
  obtain ⟨m, rfl⟩ : ∃ m, n_fold = m + 1 := ⟨n_fold - 1, by omega⟩
  simp only [Nat.add_sub_cancel]
  rw [Nat.succ_mul] at hdm
  generalize hq : l.length / (m + 1) = q at hdm ⊢
  generalize hr : l.length % (m + 1) = r at hdm ⊢
  omega

/-- Concatenating the folds `j+1 .. n_fold` (for `j < n_fold`) recovers the
tail of the list starting at fold `j+1`'s offset. -/
theorem foldSlice_flatten_aux {α : Type} (l : List α) (n_fold : Nat) :
    ∀ m j : Nat, j + m = n_fold → 1 ≤ m →
      ((List.range m).map (fun k => foldSlice l n_fold (j + k + 1))).flatten
        = l.drop (j * (l.length / n_fold)) := by
  intro m
  induction m with
  | zero => intro j _ h1; exact absurd h1 (by omega)
  | succ m ih =>
    intro j hjm h1
    by_cases hm : m = 0
    · subst hm
      simp only [List.range_succ_eq_map, List.range_zero, List.map_nil, List.map_cons,
        List.flatten_cons, List.flatten_nil, List.append_nil, Nat.add_zero]
      have hj : j + 1 = n_fold := by omega
      have hj1 : n_fold - 1 = j := by omega
      rw [hj, (foldSlice_last l n_fold (by omega)).1, hj1]
    · have hm1 : 1 ≤ m := by omega
      rw [List.range_succ_eq_map]
      simp only [List.map_cons, List.map_map, List.flatten_cons, Nat.add_zero]
      have hmap : (List.range m).map ((fun k => foldSlice l n_fold (j + k + 1)) ∘ Nat.succ)
          = (List.range m).map (fun k => foldSlice l n_fold ((j + 1) + k + 1)) := by
        apply List.map_congr_left
        intro k _
        simp only [Function.comp]
        congr 1
        omega
      rw [hmap, ih (j + 1) (by omega) hm1]
      rw [foldSlice_of_lt l n_fold (j + 1) (by omega) (by omega)]
      simp only [Nat.add_sub_cancel]
      rw [Nat.succ_mul]
      exact List.drop_take_append_drop l (j * (l.length / n_fold)) (l.length / n_fold)

/-- Concatenating all folds in order recovers the original list: elements are
never moved across folds by the slicing. -/
theorem foldSlice_flatten {α : Type} (l : List α) (n_fold : Nat) (hn : 1 ≤ n_fold) :
    ((List.range n_fold).map (fun k => foldSlice l n_fold (k + 1))).flatten = l := by
  have h := foldSlice_flatten_aux l n_fold n_fold 0 (by omega) hn
  simpa using h

/-- The per-fold lengths over folds `1..n_fold` sum to the list's length. -/
theorem sum_foldSlice_length {α : Type} (l : List α) (n_fold : Nat) (hn : 1 ≤ n_fold) :
    Finset.sum (Finset.Icc 1 n_fold) (fun i => (foldSlice l n_fold i).length) = l.length := by
  have hicc : Finset.Icc 1 n_fold = insert n_fold (Finset.Icc 1 (n_fold - 1)) := by
    ext x
    simp only [Finset.mem_Icc, Finset.mem_insert]
    omega
  rw [hicc, Finset.sum_insert (by simp only [Finset.mem_Icc]; omega)]
  have hconst : Finset.sum (Finset.Icc 1 (n_fold - 1)) (fun i => (foldSlice l n_fold i).length)
      = Finset.sum (Finset.Icc 1 (n_fold - 1)) (fun _ => l.length / n_fold) := by
    apply Finset.sum_congr rfl
    intro i hi
    rw [Finset.mem_Icc] at hi
    exact foldSlice_length_of_lt l n_fold i hi.1 (by omega)
  rw [hconst, Finset.sum_const, (foldSlice_last l n_fold hn).2, Nat.card_Icc]
  simp only [smul_eq_mul]
  have hdm := Nat.div_add_mod l.length n_fold
  obtain ⟨m, rfl⟩ : ∃ m, n_fold = m + 1 := ⟨n_fold - 1, by omega⟩
  simp only [Nat.add_sub_cancel]
  rw [Nat.succ_mul] at hdm
  omega

/-- C2: each dataset entry appears in every fold dictionary produced by
`split_all_cross_validation_datasets` with its slice for that fold, and for
every side effect and every `n_fold ≥ 1` the per-fold pair counts over folds
`1..n_fold` sum to the side effect's total pair count. -/
theorem split_cv_fold_counts {α : Type} (datasets : List (String × List α))
    (n_fold : Nat) (hn : 1 ≤ n_fold) (se : String) (l : List α)
    (hmem : (se, l) ∈ datasets) (fold_i : Nat) :
    (se, foldSlice l n_fold fold_i)
        ∈ split_all_cross_validation_datasets datasets n_fold fold_i ∧
    Finset.sum (Finset.Icc 1 n_fold) (fun i => (foldSlice l n_fold i).length) = l.length := by
  exact ⟨List.mem_map.mpr ⟨(se, l), hmem, rfl⟩, sum_foldSlice_length l n_fold hn⟩

/-- Witness for `split_cv_fold_counts`: one side effect with three pairs split
into two folds of sizes 1 and 2. -/
theorem split_cv_fold_counts_witness :
    (("e", foldSlice [0, 1, 2] 2 1)
        ∈ split_all_cross_validation_datasets [("e", [0, 1, 2])] 2 1) ∧
    Finset.sum (Finset.Icc 1 2) (fun i => (foldSlice [0, 1, 2] 2 i).length) = 3 :=
  split_cv_fold_counts [("e", [0, 1, 2])] 2 (by decide) "e" [0, 1, 2] (by decide) 1

/-- C3: each dataset entry appears in the fold dictionaries with its slice;
every fold `i` with `1 ≤ i < n_fold` (written `i = k + 1` below) is the
contiguous slice of length `len // n_fold` starting at offset
`(i - 1) * (len // n_fold)`; the last fold is the remaining suffix of length
`len // n_fold + len % n_fold`; and concatenating the folds in order
recovers the list, so elements are never moved across folds. -/
theorem split_cv_contiguous_slicing {α : Type} (datasets : List (String × List α))
    (n_fold : Nat) (hn : 1 ≤ n_fold) (se : String) (l : List α)
    (hmem : (se, l) ∈ datasets) (fold_i : Nat) :
    (se, foldSlice l n_fold fold_i)
        ∈ split_all_cross_validation_datasets datasets n_fold fold_i ∧
    (List.range (n_fold - 1)).map (fun k => foldSlice l n_fold (k + 1))
      = (List.range (n_fold - 1)).map
          (fun k => (l.drop (k * (l.length / n_fold))).take (l.length / n_fold)) ∧
    (List.range (n_fold - 1)).map (fun k => (foldSlice l n_fold (k + 1)).length)
      = List.replicate (n_fold - 1) (l.length / n_fold) ∧
    foldSlice l n_fold n_fold = l.drop ((n_fold - 1) * (l.length / n_fold)) ∧
    (foldSlice l n_fold n_fold).length = l.length / n_fold + l.length % n_fold ∧
    ((List.range n_fold).map (fun k => foldSlice l n_fold (k + 1))).flatten = l := by
  refine ⟨List.mem_map.mpr ⟨(se, l), hmem, rfl⟩, ?_, ?_, (foldSlice_last l n_fold hn).1,
    (foldSlice_last l n_fold hn).2, foldSlice_flatten l n_fold hn⟩
  · apply List.map_congr_left
    intro k hk
    rw [List.mem_range] at hk
    have h := foldSlice_of_lt l n_fold (k + 1) (by omega) (by omega)
    simpa using h
  · have hall : ∀ b ∈ (List.range (n_fold - 1)).map
        (fun k => (foldSlice l n_fold (k + 1)).length), b = l.length / n_fold := by
      intro b hb
      rw [List.mem_map] at hb
      obtain ⟨k, hk, rfl⟩ := hb
      rw [List.mem_range] at hk
      exact foldSlice_length_of_lt l n_fold (k + 1) (by omega) (by omega)
    have hrep := List.eq_replicate_of_mem hall
    simpa using hrep

/-- Witness for `split_cv_contiguous_slicing`: five pairs split into two
folds, giving slices `[0, 1]` and `[2, 3, 4]`. -/
theorem split_cv_contiguous_slicing_witness :
    (("e", foldSlice [0, 1, 2, 3, 4] 2 1)
        ∈ split_all_cross_validation_datasets [("e", [0, 1, 2, 3, 4])] 2 1) ∧
    (List.range (2 - 1)).map (fun k => foldSlice [0, 1, 2, 3, 4] 2 (k + 1))
      = (List.range (2 - 1)).map
          (fun k => (([0, 1, 2, 3, 4] : List Nat).drop
            (k * ([0, 1, 2, 3, 4] : List Nat).length / 2)).take
              (([0, 1, 2, 3, 4] : List Nat).length / 2)) ∧
    (List.range (2 - 1)).map (fun k => (foldSlice [0, 1, 2, 3, 4] 2 (k + 1)).length)
      = List.replicate (2 - 1) (([0, 1, 2, 3, 4] : List Nat).length / 2) ∧
    foldSlice [0, 1, 2, 3, 4] 2 2
      = ([0, 1, 2, 3, 4] : List Nat).drop ((2 - 1) * (([0, 1, 2, 3, 4] : List Nat).length / 2)) ∧
    (foldSlice [0, 1, 2, 3, 4] 2 2).length
      = ([0, 1, 2, 3, 4] : List Nat).length / 2 + ([0, 1, 2, 3, 4] : List Nat).length % 2 ∧
    ((List.range 2).map (fun k => foldSlice [0, 1, 2, 3, 4] 2 (k + 1))).flatten
      = [0, 1, 2, 3, 4] :=
  split_cv_contiguous_slicing [("e", [0, 1, 2, 3, 4])] 2 (by decide) "e" [0, 1, 2, 3, 4]
    (by decide) 1
